import Mathlib

/-!
Verification development for the dbusfs repository (src/main.rs, src/node.rs).

The development shallowly embeds the two source files:

* `src/node.rs` — the D-Bus introspection XML parser.  The external `xml`
  crate's `EventReader` is a boundary; an XML document is represented here by
  the sequence of reader events it yields (`XmlEvent` below: start/end element
  events with the element's local name and its attributes as (local_name,
  value) pairs, plus a constructor for the reader's other event kinds and one
  for reader errors, which carry no data the parser inspects).

* `src/main.rs` — the FUSE filesystem `DbusFs`.  The D-Bus connection is a
  boundary and is modelled by an oracle (`BusOracle`) giving the wire reply
  of each remote call; the filesystem state (inode tables, allocation
  counter) is explicit.
-/

set_option linter.unusedVariables false

/-- One event of the XML reader (boundary model of the `xml` crate's
`EventReader`): a start element with local name and attributes, an end
element, any other event kind (StartDocument, characters, ...), or a reader
error for a malformed document. -/
inductive XmlEvent : Type
  | startElement (name : String) (attrs : List (String × String))
  | endElement (name : String)
  | otherEvent
  | errorEvent
deriving DecidableEq

/-- node.rs `Node`: one `<node name=".."/>` child object-path segment. -/
structure Node where
  name : String
deriving DecidableEq

/-- node.rs `Direction` for method arguments. -/
inductive Direction : Type
  | In
  | Out
deriving DecidableEq

/-- node.rs `Access` for properties. -/
inductive Access : Type
  | Read
  | Write
  | ReadWrite
deriving DecidableEq

/-- node.rs `Argument`: name and type signature. -/
structure Argument where
  name : String
  typesig : String
deriving DecidableEq

/-- node.rs `Property`.  The `annotations` map (unsupported in the source,
always left empty there) is modelled as the assoc list `annos`. -/
structure Property where
  name : String
  typesig : String
  access : Access
  annos : List (String × String)
deriving DecidableEq

/-- node.rs `Method`: arguments with directions, plus annotations
(field `annos` models the source's `annotations` BTreeMap). -/
structure Method where
  name : String
  args : List (Argument × Direction)
  annos : List (String × String)
deriving DecidableEq

/-- node.rs `Signal`: arguments without directions, plus annotations
(field `annos` models the source's `annotations` BTreeMap). -/
structure Signal where
  name : String
  args : List Argument
  annos : List (String × String)
deriving DecidableEq

/-- node.rs `Interface` (field `annos` models the source's `annotations`
BTreeMap, as a key-sorted assoc list). -/
structure Interface where
  name : String
  methods : List Method
  properties : List Property
  signals : List Signal
  annos : List (String × String)
deriving DecidableEq

/-- node.rs `NodeInfo`: the parsed introspection document. -/
structure NodeInfo where
  nodes : List Node
  interfaces : List Interface
deriving DecidableEq

/-- Insertion into a key-sorted association list, replacing an existing
binding: the model of `BTreeMap::insert`. -/
def btreeInsert : List (String × String) → String → String → List (String × String)
  | [], k, v => [(k, v)]
  | e :: rest, k, v =>
    if k < e.1 then (k, v) :: e :: rest
    else if k = e.1 then (k, v) :: rest
    else e :: btreeInsert rest k v

/-- Lookup in an association list by key (first binding wins); used both for
the modelled BTreeMaps and for the modelled HashMaps of main.rs. -/
def alistFind {α β : Type} [DecidableEq α] (k : α) : List (α × β) → Option β
  | [] => none
  | e :: rest => if e.1 = k then some e.2 else alistFind k rest

/-- node.rs `get_name`: the value of the first attribute named `name`. -/
def get_name (attrs : List (String × String)) : Option String :=
  (attrs.find? (fun a => decide (a.1 = "name"))).map (fun a => a.2)

/-- node.rs `get_name_value`: the values of the `name` and `value`
attributes (last occurrence of each wins), if both are present. -/
def get_name_value (attrs : List (String × String)) : Option (String × String) :=
  match attrs.foldl
      (fun acc attr =>
        if attr.1 = "name" then (some attr.2, acc.2)
        else if attr.1 = "value" then (acc.1, some attr.2)
        else acc)
      ((none : Option String), (none : Option String)) with
  | (some n, some v) => some (n, v)
  | _ => none

/-- One iteration of the attribute loop of `Argument::from_xml`: collect
`name`, `type` and `direction` into the mutable state (an unrecognized
direction value leaves the current direction in place). -/
def Argument.updAttr (acc : Option String × Option String × Direction)
    (attr : String × String) : Option String × Option String × Direction :=
  if attr.1 = "name" then (some attr.2, acc.2.1, acc.2.2)
  else if attr.1 = "type" then (acc.1, some attr.2, acc.2.2)
  else if attr.1 = "direction" then
    (acc.1, acc.2.1,
      if attr.2 = "in" then Direction.In
      else if attr.2 = "out" then Direction.Out
      else acc.2.2)
  else acc

/-- node.rs `Argument::from_xml`: fold over the attributes (the starting
direction is `In`); an argument results only when both `name` and `type`
were seen. -/
def Argument.from_xml (attrs : List (String × String)) :
    Option (Argument × Direction) :=
  match attrs.foldl Argument.updAttr
      ((none : Option String), (none : Option String), Direction.In) with
  | (some n, some t, d) => some ({ name := n, typesig := t }, d)
  | _ => none

/-- One iteration of the attribute loop of `Property::from_xml`: collect
`name`, `type` and access; note the source treats a `direction` attribute
as an alias for `access`, and any unrecognized access value maps to
`ReadWrite`. -/
def Property.updAttr (acc : Option String × Option String × Access)
    (attr : String × String) : Option String × Option String × Access :=
  if attr.1 = "name" then (some attr.2, acc.2.1, acc.2.2)
  else if attr.1 = "type" then (acc.1, some attr.2, acc.2.2)
  else if attr.1 = "access" ∨ attr.1 = "direction" then
    (acc.1, acc.2.1,
      if attr.2 = "read" then Access.Read
      else if attr.2 = "write" then Access.Write
      else Access.ReadWrite)
  else acc

/-- node.rs `Property::from_xml`: fold over the attributes (the starting
access is `ReadWrite`); a property results only when both `name` and
`type` were seen.  Its annotations are always left empty (a source
`TODO`). -/
def Property.from_xml (attrs : List (String × String)) : Option Property :=
  match attrs.foldl Property.updAttr
      ((none : Option String), (none : Option String), Access.ReadWrite) with
  | (some n, some t, a) =>
    some { name := n, typesig := t, access := a, annos := [] }
  | _ => none

/-- Is this event the end element of the given tag?  Models the parsers'
`Ok(EndElement { local_name, .. }) if local_name == tag` break arms. -/
def isEndOf (tag : String) : XmlEvent → Bool
  | .endElement ln => decide (ln = tag)
  | _ => false

/-- The per-event accumulator update of the `Method::from_xml` loop: an
`arg` start element appends a parsed argument, an `annotation` start element
inserts a name/value pair, every other event leaves the method unchanged. -/
def Method.upd (m : Method) : XmlEvent → Method
  | .startElement ln attrs =>
    if ln = "arg" then
      match Argument.from_xml attrs with
      | some ad => { m with args := m.args ++ [ad] }
      | none => m
    else if ln = "annotation" then
      match get_name_value attrs with
      | some nv => { m with annos := btreeInsert m.annos nv.1 nv.2 }
      | none => m
    else m
  | _ => m

/-- node.rs `Method::from_xml` event loop: consume events, updating the
method, until the matching `</method>` end element (or the end of stream),
returning the method and the unconsumed events. -/
def Method.from_xml_go (m : Method) : List XmlEvent → Method × List XmlEvent
  | [] => (m, [])
  | ev :: rest =>
    if isEndOf "method" ev then (m, rest)
    else Method.from_xml_go (Method.upd m ev) rest

/-- node.rs `Method::from_xml`. -/
def Method.from_xml (name : String) (events : List XmlEvent) :
    Method × List XmlEvent :=
  Method.from_xml_go { name := name, args := [], annos := [] } events

/-- The per-event accumulator update of the `Signal::from_xml` loop; note
the source pushes only the argument of the pair (`arg.0`), dropping the
direction. -/
def Signal.upd (s : Signal) : XmlEvent → Signal
  | .startElement ln attrs =>
    if ln = "arg" then
      match Argument.from_xml attrs with
      | some ad => { s with args := s.args ++ [ad.1] }
      | none => s
    else if ln = "annotation" then
      match get_name_value attrs with
      | some nv => { s with annos := btreeInsert s.annos nv.1 nv.2 }
      | none => s
    else s
  | _ => s

/-- node.rs `Signal::from_xml` event loop: consume events until the
matching `</signal>` end element (or end of stream). -/
def Signal.from_xml_go (s : Signal) : List XmlEvent → Signal × List XmlEvent
  | [] => (s, [])
  | ev :: rest =>
    if isEndOf "signal" ev then (s, rest)
    else Signal.from_xml_go (Signal.upd s ev) rest

/-- node.rs `Signal::from_xml`. -/
def Signal.from_xml (name : String) (events : List XmlEvent) :
    Signal × List XmlEvent :=
  Signal.from_xml_go { name := name, args := [], annos := [] } events

/-- A start element of the given tag carrying a `name` attribute, as
matched by the `if let Some(name) = get_name(attrs)` arms of the source. -/
def startNamed (tag : String) : XmlEvent → Option String
  | .startElement ln attrs => if ln = tag then get_name attrs else none
  | _ => none

/-- The non-consuming accumulator update of the `Interface::from_xml` loop:
`property` and `annotation` start elements update the interface in place;
everything else (other than the nested `method`/`signals` cases and the
closing tag, handled in `Interface.from_xml_go`) is ignored. -/
def Interface.upd (ifc : Interface) : XmlEvent → Interface
  | .startElement ln attrs =>
    if ln = "property" then
      match Property.from_xml attrs with
      | some pr => { ifc with properties := ifc.properties ++ [pr] }
      | none => ifc
    else if ln = "annotation" then
      match get_name_value attrs with
      | some nv => { ifc with annos := btreeInsert ifc.annos nv.1 nv.2 }
      | none => ifc
    else ifc
  | _ => ifc

theorem method_from_xml_go_len (m : Method) (events : List XmlEvent) :
    (Method.from_xml_go m events).2.length ≤ events.length := by
  induction events generalizing m with
  | nil => simp [Method.from_xml_go]
  | cons ev rest ih =>
    simp only [Method.from_xml_go]
    split
    · simp
    · exact le_trans (ih _) (Nat.le_succ _)

theorem method_from_xml_len (name : String) (events : List XmlEvent) :
    (Method.from_xml name events).2.length ≤ events.length :=
  method_from_xml_go_len _ _

theorem signal_from_xml_go_len (s : Signal) (events : List XmlEvent) :
    (Signal.from_xml_go s events).2.length ≤ events.length := by
  induction events generalizing s with
  | nil => simp [Signal.from_xml_go]
  | cons ev rest ih =>
    simp only [Signal.from_xml_go]
    split
    · simp
    · exact le_trans (ih _) (Nat.le_succ _)

theorem signal_from_xml_len (name : String) (events : List XmlEvent) :
    (Signal.from_xml name events).2.length ≤ events.length :=
  signal_from_xml_go_len _ _

/-- node.rs `Interface::from_xml` event loop.  A `method` start element
with a name hands the stream to `Method.from_xml`; the source's next arm
matches the element name `"signals"` (not `"signal"`; transcribed from the
source string at src/node.rs line 157) and hands the stream to
`Signal.from_xml`; a `</interface>` end element stops; everything else is
handled by `Interface.upd`. -/
def Interface.from_xml_go (ifc : Interface) (events : List XmlEvent) :
    Interface × List XmlEvent :=
  match events with
  | [] => (ifc, [])
  | ev :: rest =>
    if isEndOf "interface" ev then (ifc, rest)
    else
      match startNamed "method" ev with
      | some n =>
        let mr := Method.from_xml n rest
        Interface.from_xml_go { ifc with methods := ifc.methods ++ [mr.1] } mr.2
      | none =>
        match startNamed "signals" ev with
        | some n =>
          let sr := Signal.from_xml n rest
          Interface.from_xml_go { ifc with signals := ifc.signals ++ [sr.1] } sr.2
        | none => Interface.from_xml_go (Interface.upd ifc ev) rest
termination_by events.length
decreasing_by
  · exact Nat.lt_succ_of_le (method_from_xml_len _ _)
  · exact Nat.lt_succ_of_le (signal_from_xml_len _ _)
  · exact Nat.lt_succ_of_le (Nat.le_refl _)

/-- node.rs `Interface::from_xml`. -/
def Interface.from_xml (name : String) (events : List XmlEvent) :
    Interface × List XmlEvent :=
  Interface.from_xml_go
    { name := name, methods := [], properties := [], signals := [], annos := [] }
    events

theorem interface_from_xml_go_len (ifc : Interface) (events : List XmlEvent) :
    (Interface.from_xml_go ifc events).2.length ≤ events.length := by
  induction ifc, events using Interface.from_xml_go.induct with
  | case1 ifc => simp [Interface.from_xml_go]
  | case2 ifc ev rest h =>
    simp only [Interface.from_xml_go, h, if_pos]
    simp
  | case3 ifc ev rest h n hn mr ih =>
    rw [Interface.from_xml_go]
    simp only [h, hn, if_neg, Bool.false_eq_true, not_false_iff]
    exact le_trans ih (le_trans (method_from_xml_len _ _) (Nat.le_succ _))
  | case4 ifc ev rest h hn n hs sr ih =>
    rw [Interface.from_xml_go]
    simp only [h, hn, hs, if_neg, Bool.false_eq_true, not_false_iff]
    exact le_trans ih (le_trans (signal_from_xml_len _ _) (Nat.le_succ _))
  | case5 ifc ev rest h hn hs ih =>
    rw [Interface.from_xml_go]
    simp only [h, hn, hs, if_neg, Bool.false_eq_true, not_false_iff]
    exact le_trans ih (Nat.le_succ _)

theorem interface_from_xml_len (name : String) (events : List XmlEvent) :
    (Interface.from_xml name events).2.length ≤ events.length :=
  interface_from_xml_go_len _ _

/-- The non-consuming accumulator update of the `NodeInfo::from_xml` loop:
a `node` start element with a name appends a child node; everything else
(other than the nested `interface` case) is ignored. -/
def NodeInfo.upd (ni : NodeInfo) : XmlEvent → NodeInfo
  | .startElement ln attrs =>
    if ln = "node" then
      match get_name attrs with
      | some n => { ni with nodes := ni.nodes ++ [{ name := n }] }
      | none => ni
    else ni
  | _ => ni

/-- node.rs `NodeInfo::from_xml` event loop: runs to the end of the event
stream; an `interface` start element with a name hands the stream to
`Interface.from_xml`, everything else is handled by `NodeInfo.upd`
(reader error events fall through all `Ok(..)` patterns and are skipped). -/
def NodeInfo.from_xml_go (ni : NodeInfo) (events : List XmlEvent) : NodeInfo :=
  match events with
  | [] => ni
  | ev :: rest =>
    match startNamed "interface" ev with
    | some n =>
      let ir := Interface.from_xml n rest
      NodeInfo.from_xml_go { ni with interfaces := ni.interfaces ++ [ir.1] } ir.2
    | none => NodeInfo.from_xml_go (NodeInfo.upd ni ev) rest
termination_by events.length
decreasing_by
  · exact Nat.lt_succ_of_le (interface_from_xml_len _ _)
  · exact Nat.lt_succ_of_le (Nat.le_refl _)

/-- node.rs `NodeInfo::from_xml`. -/
def NodeInfo.from_xml (events : List XmlEvent) : NodeInfo :=
  NodeInfo.from_xml_go { nodes := [], interfaces := [] } events

/-- node.rs `impl FromStr for NodeInfo` (src/node.rs lines 95-101): builds
the event reader for the document and unconditionally wraps the result of
`NodeInfo::from_xml` in `Ok`. -/
def NodeInfo.from_str (events : List XmlEvent) : Except Unit NodeInfo :=
  .ok (NodeInfo.from_xml events)

/-! ## main.rs: the DbusFs filesystem -/

/-- fuse `FileType`; only the constructors the source mentions. -/
inductive FileType : Type
  | Directory
  | RegularFile
deriving DecidableEq

/-- fuse `FileAttr`.  Timestamps are seconds of the fixed sentinel
`CREATE_TIME` (the `nsec` halves, always 0 in the source, are dropped). -/
structure FileAttr where
  ino : Nat
  size : Nat
  blocks : Nat
  atime : Nat
  mtime : Nat
  ctime : Nat
  crtime : Nat
  kind : FileType
  perm : Nat
  nlink : Nat
  uid : Nat
  gid : Nat
  rdev : Nat
  flags : Nat
deriving DecidableEq

/-- main.rs `CREATE_TIME` (seconds). -/
def CREATE_TIME : Nat := 1381237736

/-- main.rs `DBUS_ACCESS_ERROR`. -/
def DBUS_ACCESS_ERROR : String := "org.freedesktop.DBus.Error.AccessDenied"

/-- libc `ENOENT`. -/
def ENOENT : Nat := 2

/-- libc `EACCES`. -/
def EACCES : Nat := 13

/-- main.rs `ROOT_DIR`: the fixed attributes of the reserved root inode 1. -/
def ROOT_DIR : FileAttr :=
  { ino := 1, size := 0, blocks := 0,
    atime := CREATE_TIME, mtime := CREATE_TIME, ctime := CREATE_TIME,
    crtime := CREATE_TIME, kind := .Directory, perm := 0o755, nlink := 2,
    uid := 0, gid := 0, rdev := 0, flags := 0 }

/-- main.rs `NodeKind`.  The source's `Annotation` constructor is named
`Anno` here. -/
inductive NodeKind : Type
  | Destination
  | ObjectPath
  | Interface
  | Method
  | Signal
  | Property
  | Anno
deriving DecidableEq

/-- The value type of the source's `inode_name` map: the tuple
`(NodeKind, BusName, Path, Option<Interface>, Option<Member>)`.  A D-Bus
object path is modelled as its list of segments (so the root object `/` is
`[]`). -/
structure InodeName where
  kind : NodeKind
  dest : String
  objpath : List String
  iface : Option String
  member : Option String
deriving DecidableEq

/-- The first `MessageItem` of a D-Bus method-call reply, as far as
`DbusFs::introspect` inspects it: a string (given as the XML event stream
the `xml` crate's reader yields for it) or anything else. -/
inductive WireItem : Type
  | str (events : List XmlEvent)
  | otherItem

/-- Outcome of a blocking D-Bus call: a reply whose first item is given (or
`none` when the reply carries no items), or a `dbus::Error`, identified by
its optional error name. -/
inductive WireReply : Type
  | ok (firstItem : Option WireItem)
  | error (name : Option String)

/-- Boundary model of the live bus (the `dbus` crate connection): the
outcome of each remote call the source makes.  `listNames` is the parsed
result of `ListNames` (`none` for a transport error, mirroring
`DbusFs::list_names`); `getUnixUser` the result of `GetConnectionUnixUser`
(`none` for an error, which `make_inode` turns into uid 0); `primaryGroup`
models the `users` crate's `get_user_by_uid(..).map(primary_group)`;
`introspectReply` the raw reply of `Introspect` on (destination, object
path). -/
structure BusOracle where
  listNames : Option (List String)
  getUnixUser : String → Option Nat
  primaryGroup : Nat → Option Nat
  introspectReply : String → List String → WireReply

/-- main.rs `DbusFs` state.  The source declares a single field
`inodes: HashMap<(u64, PathBuf), u64>` but uses it under two incompatible
key types: `make_inode` (line 126) inserts `(ino, path)` pairs and
`path_by_inode` (line 169) and the `make_inode` scan (line 89) read it as a
map from inode id to virtual path, while `lookup` (line 326) reads it with
a `(parent inode, child name)` key that no insertion ever produces.  The
embedding therefore splits the field into `inodes` (inode id → virtual
path, the view every write targets) and `lookupCache` (the `(parent, name)`
keyed view `lookup` reads, which consequently is never written). -/
structure DbusFs where
  inodes : List (Nat × List String)
  lookupCache : List ((Nat × String) × Nat)
  inode_attr : List (Nat × FileAttr)
  inode_name : List (Nat × InodeName)
  last_inode : Nat

/-- main.rs `DbusFs::from_connection`: empty tables, allocation counter
seeded at 2. -/
def DbusFs.init : DbusFs :=
  { inodes := [], lookupCache := [], inode_attr := [], inode_name := [],
    last_inode := 2 }

/-- main.rs `split_path`: first component is the destination bus name, the
remaining components form the object path.  Validation of the name by the
external `dbus` crate's `BusName::new` is a boundary; it is modelled as
rejecting the empty name. -/
def split_path (path : List String) : Option (String × List String) :=
  match path with
  | [] => none
  | d :: rest => if d = "" then none else some (d, rest)

/-- main.rs `DbusFs::introspect`: send `Introspect`, and on a reply map the
first item — a string parses via `FromStr for NodeInfo` with `.ok()`
(which never yields `None`, since `from_str` always returns `Ok`), any
other first item is `None`.  A `dbus::Error` is passed through. -/
def DbusFs.introspect (oracle : BusOracle) (dest : String)
    (object : List String) : Except (Option String) (Option NodeInfo) :=
  match oracle.introspectReply dest object with
  | .ok (some (.str s)) =>
    match NodeInfo.from_str s with
    | .ok ni => .ok (some ni)
    | .error _ => .ok none
  | .ok _ => .ok none
  | .error en => .error en

/-- The scan `self.inodes.iter().find(|&(_, p)| p == path)` of
`make_inode` (line 89). -/
def findPath (p : List String) (l : List (Nat × List String)) :
    Option (Nat × List String) :=
  l.find? (fun e => decide (e.2 = p))

/-- The attribute record `make_inode` commits (src/main.rs lines
109-124): a directory of size 0 whose remaining fields are the allocated
id, the resolved owner, and the permission/link-count pair picked from the
introspection outcome. -/
def commitAttr (ino uid gid perm nlink : Nat) : FileAttr :=
  { ino := ino, size := 0, blocks := 1,
    atime := CREATE_TIME, mtime := CREATE_TIME, ctime := CREATE_TIME,
    crtime := CREATE_TIME, kind := .Directory, perm := perm,
    nlink := nlink, uid := uid, gid := gid, rdev := 0, flags := 0 }

/-- The commit tail of `make_inode` (src/main.rs lines 109-128): build the
attribute record and insert it into `inodes` and `inode_attr` under the
freshly allocated id.  The id is fresh (above every key in either table on
reachable states), so prepending models `HashMap::insert`. -/
def mkCommit (fs : DbusFs) (path : List String)
    (ino uid gid perm nlink : Nat) : Option FileAttr × DbusFs :=
  (some (commitAttr ino uid gid perm nlink),
    { fs with inodes := (ino, path) :: fs.inodes,
              inode_attr := (ino, commitAttr ino uid gid perm nlink) :: fs.inode_attr })

/-- main.rs `DbusFs::make_inode`: return the cached attributes if some
inode already maps to `path` (the source indexes `inode_attr` by that
inode, which panics if absent; the model returns the option); otherwise
allocate the next id (the counter is bumped before the path is validated,
exactly as `fetch_add` on line 93 precedes `split_path` on line 95),
resolve uid/gid, introspect, and commit an entry — mode 0755 with link
count `nodes.len()` on a parsed document, mode 0750 with link count 0 on
an AccessDenied error, and no entry at all otherwise. -/
def DbusFs.make_inode (oracle : BusOracle) (fs : DbusFs)
    (path : List String) : Option FileAttr × DbusFs :=
  match findPath path fs.inodes with
  | some e => (alistFind e.1 fs.inode_attr, fs)
  | none =>
    let ino := fs.last_inode
    let fs1 : DbusFs := { fs with last_inode := fs.last_inode + 1 }
    match split_path path with
    | none => (none, fs1)
    | some (dest, object) =>
      let uid := (oracle.getUnixUser dest).getD 0
      let gid := (oracle.primaryGroup uid).getD 0
      match DbusFs.introspect oracle dest object with
      | .ok (some ni) => mkCommit fs1 path ino uid gid 0o755 ni.nodes.length
      | .ok none => (none, fs1)
      | .error en =>
        if en = some DBUS_ACCESS_ERROR then mkCommit fs1 path ino uid gid 0o750 0
        else (none, fs1)

/-- main.rs `DbusFs::file_attr_dir` (the receiver is unused in the
source). -/
def DbusFs.file_attr_dir (ino : Nat) : FileAttr :=
  { ino := ino, size := 0, blocks := 1,
    atime := CREATE_TIME, mtime := CREATE_TIME, ctime := CREATE_TIME,
    crtime := CREATE_TIME, kind := .Directory, perm := 0o755, nlink := 2,
    uid := 0, gid := 0, rdev := 0, flags := 0 }

/-- main.rs `DbusFs::file_attr_file` (the receiver is unused in the
source).  Note the source sets `kind: FileType::Directory` (line 158). -/
def DbusFs.file_attr_file (ino : Nat) : FileAttr :=
  { ino := ino, size := 0, blocks := 1,
    atime := CREATE_TIME, mtime := CREATE_TIME, ctime := CREATE_TIME,
    crtime := CREATE_TIME, kind := .Directory, perm := 0o644, nlink := 1,
    uid := 0, gid := 0, rdev := 0, flags := 0 }

/-- main.rs `DbusFs::path_by_inode`. -/
def DbusFs.path_by_inode (fs : DbusFs) (ino : Nat) : Option (List String) :=
  alistFind ino fs.inodes

/-- main.rs `DbusFs::attr_by_inode`. -/
def DbusFs.attr_by_inode (fs : DbusFs) (ino : Nat) : Option FileAttr :=
  alistFind ino fs.inode_attr

/-- main.rs `Filesystem::getattr` for `DbusFs`: the fixed `ROOT_DIR` for
inode 1, otherwise the cached snapshot; `none` models `reply.error(ENOENT)`. -/
def DbusFs.getattr (fs : DbusFs) (ino : Nat) : Option FileAttr :=
  if ino = 1 then some ROOT_DIR else fs.attr_by_inode ino

/-- Result of a `readdir` call: the entries handed to `reply.add` followed
by `reply.ok()` (each entry is inode id, file type, name), or
`reply.error(code)`.  The FUSE reply buffer is a boundary; it is modelled
as never filling up (`reply.add` returning `false`). -/
inductive ReaddirOut : Type
  | ok (entries : List (Nat × FileType × String))
  | err (code : Nat)
deriving DecidableEq

/-- The child loops of `readdir` (src/main.rs lines 270-276 and 299-306):
fold over the (entry name, virtual path) items, materializing each through
`make_inode` and emitting an entry when it yields attributes. -/
def listChildren (oracle : BusOracle)
    (items : List (String × List String))
    (start : List (Nat × FileType × String) × DbusFs) :
    List (Nat × FileType × String) × DbusFs :=
  items.foldl
    (fun acc it =>
      match DbusFs.make_inode oracle acc.2 it.2 with
      | (some attr, fs') => (acc.1 ++ [(attr.ino, attr.kind, it.1)], fs')
      | (none, fs') => (acc.1, fs'))
    start

/-- main.rs `list_dot_dirs`: the `.` and `..` entries, emitted only at
offset 0 (with the never-full reply buffer it returns `false`, so the
caller goes on to list children). -/
def list_dot_dirs (ino offset : Nat) : List (Nat × FileType × String) :=
  if offset = 0 then [(ino, FileType.Directory, "."), (ino, FileType.Directory, "..")]
  else []

/-- main.rs `Filesystem::readdir` for `DbusFs`.  Inode 1 lists the bus
names from `ListNames` (ENOENT on a transport error), materializing each
via `make_inode` on the single-segment path.  Any other inode re-derives
its children by introspecting its own virtual path: a parsed document
lists its child nodes (materialized via `make_inode` on the joined path),
an AccessDenied error yields EACCES, anything else ENOENT. -/
def DbusFs.readdir (oracle : BusOracle) (fs : DbusFs) (ino offset : Nat) :
    ReaddirOut × DbusFs :=
  if ino = 1 then
    match oracle.listNames with
    | none => (.err ENOENT, fs)
    | some names =>
      let r := listChildren oracle
        ((names.drop offset).map (fun n => (n, [n]))) ([], fs)
      (.ok (list_dot_dirs ino offset ++ r.1), r.2)
  else
    match fs.path_by_inode ino with
    | none => (.err ENOENT, fs)
    | some parent =>
      match split_path parent with
      | none => (.err ENOENT, fs)
      | some (dest, object) =>
        match DbusFs.introspect oracle dest object with
        | .ok (some ni) =>
          let r := listChildren oracle
            ((ni.nodes.drop offset).map (fun nd => (nd.name, parent ++ [nd.name])))
            ([], fs)
          (.ok (list_dot_dirs ino offset ++ r.1), r.2)
        | .ok none => (.err ENOENT, fs)
        | .error en =>
          if en = some DBUS_ACCESS_ERROR then (.err EACCES, fs)
          else (.err ENOENT, fs)

/-- Result of a `lookup` call: a committed entry replied with its
attributes, or `reply.error(code)`. -/
inductive LookupOut : Type
  | entry (attr : FileAttr)
  | err (code : Nat)
deriving DecidableEq

/-- The commit tail of the `lookup` fallback (src/main.rs lines 367-370):
reply with the freshly built attributes and insert them into `inode_name`
and `inode_attr` (and only those two tables) under the freshly allocated
id, bumping the counter (the source's `fetch_add`). -/
def lookupCommit (fs : DbusFs) (attr : FileAttr) (nm : InodeName) :
    LookupOut × DbusFs :=
  (.entry attr,
    { fs with last_inode := fs.last_inode + 1,
              inode_name := (attr.ino, nm) :: fs.inode_name,
              inode_attr := (attr.ino, attr) :: fs.inode_attr })

/-- The classification `match parent.0` of the `lookup` fallback
(src/main.rs lines 336-365).  The source's `if` arms without an `else`
(and the arms for the member kinds) are completed as `reply.error(ENOENT)`
with no allocation.  The comparison `n.name == parent.3` of line 348
(a name against an `Option`) is read as matching `Some(n.name)`. -/
def lookupClassify (fs : DbusFs) (pn : InodeName) (ni : NodeInfo)
    (name : String) : LookupOut × DbusFs :=
  match pn.kind with
  | .Destination =>
    if (ni.nodes.find? (fun n => decide (n.name = name))).isSome then
      lookupCommit fs (DbusFs.file_attr_dir fs.last_inode)
        { kind := .ObjectPath, dest := pn.dest, objpath := pn.objpath ++ [name],
          iface := none, member := none }
    else (.err ENOENT, fs)
  | .ObjectPath =>
    if (ni.nodes.find? (fun n => decide (n.name = name))).isSome then
      lookupCommit fs (DbusFs.file_attr_dir fs.last_inode)
        { kind := .ObjectPath, dest := pn.dest, objpath := pn.objpath ++ [name],
          iface := none, member := none }
    else if (ni.interfaces.find? (fun i => decide (i.name = name))).isSome then
      lookupCommit fs (DbusFs.file_attr_dir fs.last_inode)
        { kind := .Interface, dest := pn.dest, objpath := pn.objpath,
          iface := some name, member := none }
    else (.err ENOENT, fs)
  | .Interface =>
    match ni.interfaces.find? (fun i => decide (some i.name = pn.iface)) with
    | some ifc =>
      if (ifc.methods.find? (fun m => decide (m.name = name))).isSome then
        lookupCommit fs (DbusFs.file_attr_file fs.last_inode)
          { pn with kind := .Method, member := some name }
      else if (ifc.properties.find? (fun pr => decide (pr.name = name))).isSome then
        lookupCommit fs (DbusFs.file_attr_file fs.last_inode)
          { pn with kind := .Property, member := some name }
      else if (ifc.signals.find? (fun sg => decide (sg.name = name))).isSome then
        lookupCommit fs (DbusFs.file_attr_file fs.last_inode)
          { pn with kind := .Signal, member := some name }
      else if (alistFind name ifc.annos).isSome then
        lookupCommit fs (DbusFs.file_attr_file fs.last_inode)
          { pn with kind := .Anno, member := some name }
      else (.err ENOENT, fs)
    | none => (.err ENOENT, fs)
  | _ => (.err ENOENT, fs)

/-- main.rs `Filesystem::lookup` for `DbusFs`: first the cache check of
line 326 (reading the `(parent, name)`-keyed view of `inodes`, which is
never written, chained into `inode_attr`); on a miss, the fallback looks
the parent up in `inode_name` (ENOENT when absent — `inode_name` is only
ever written inside this very branch), introspects the parent's object and
classifies the child. -/
def DbusFs.lookup (oracle : BusOracle) (fs : DbusFs) (parent : Nat)
    (name : String) : LookupOut × DbusFs :=
  match (alistFind (parent, name) fs.lookupCache).bind
      (fun i => alistFind i fs.inode_attr) with
  | some attr => (.entry attr, fs)
  | none =>
    match alistFind parent fs.inode_name with
    | none => (.err ENOENT, fs)
    | some pn =>
      match DbusFs.introspect oracle pn.dest pn.objpath with
      | .ok (some ni) => lookupClassify fs pn ni name
      | _ => (.err ENOENT, fs)

/-- One filesystem request, as dispatched to `DbusFs` by the fuse crate
(the state-changing ones; `getattr` and `read` never mutate the state). -/
inductive Op : Type
  | mkInode (path : List String)
  | lookupOp (parent : Nat) (name : String)
  | readdirOp (ino offset : Nat)

/-- The state reached after serving one request. -/
def step (oracle : BusOracle) (fs : DbusFs) : Op → DbusFs
  | .mkInode p => (DbusFs.make_inode oracle fs p).2
  | .lookupOp parent name => (DbusFs.lookup oracle fs parent name).2
  | .readdirOp ino offset => (DbusFs.readdir oracle fs ino offset).2

/-- The state reached after serving a sequence of requests. -/
def run (oracle : BusOracle) (fs : DbusFs) (ops : List Op) : DbusFs :=
  ops.foldl (step oracle) fs

/-- States reachable from the fresh mount (`DbusFs.init`) under a fixed
bus oracle. -/
def reachable (oracle : BusOracle) (fs : DbusFs) : Prop :=
  ∃ ops, run oracle DbusFs.init ops = fs

/-! ## Concrete bus oracles used to instantiate theorems -/

/-- A bus exposing one name whose every object answers `Introspect` with
AccessDenied. -/
def denyOracle : BusOracle :=
  { listNames := some ["org.example.A"],
    getUnixUser := fun _ => none,
    primaryGroup := fun _ => none,
    introspectReply := fun _ _ => .error (some DBUS_ACCESS_ERROR) }

/-- Event stream of the empty document `<node/>`. -/
def emptyDocEvents : List XmlEvent :=
  [XmlEvent.startElement "node" [], XmlEvent.endElement "node"]

/-- A bus whose every object answers `Introspect` with the empty document
`<node/>` (no children, no interfaces). -/
def emptyDocOracle : BusOracle :=
  { listNames := some ["org.example.A"],
    getUnixUser := fun _ => none,
    primaryGroup := fun _ => none,
    introspectReply := fun _ _ => .ok (some (.str emptyDocEvents)) }

/-- The parse of the empty document. -/
def emptyDocNodeInfo : NodeInfo := NodeInfo.from_xml emptyDocEvents

/-- The attribute record `make_inode` materializes for `org.example.A`
under `emptyDocOracle` on the fresh mount. -/
def emptyDocAttr : FileAttr :=
  { ino := 2, size := 0, blocks := 1,
    atime := CREATE_TIME, mtime := CREATE_TIME, ctime := CREATE_TIME,
    crtime := CREATE_TIME, kind := .Directory, perm := 0o755,
    nlink := emptyDocNodeInfo.nodes.length,
    uid := 0, gid := 0, rdev := 0, flags := 0 }

/-- A bus where the root object of `org.example.A` lists one child node
`o`, and introspecting any other object (in particular `/o`) answers
AccessDenied. -/
def childDocOracle : BusOracle :=
  { listNames := some ["org.example.A"],
    getUnixUser := fun _ => none,
    primaryGroup := fun _ => none,
    introspectReply := fun d o =>
      if d = "org.example.A" ∧ o = [] then
        .ok (some (.str [XmlEvent.startElement "node" [],
                         XmlEvent.startElement "node" [("name", "o")],
                         XmlEvent.endElement "node",
                         XmlEvent.endElement "node"]))
      else .error (some DBUS_ACCESS_ERROR) }

/-- A bus whose every object answers `Introspect` with a malformed
document: the reader yields one start element and then a reader error. -/
def malformedDocOracle : BusOracle :=
  { listNames := some ["org.example.A"],
    getUnixUser := fun _ => none,
    primaryGroup := fun _ => none,
    introspectReply := fun _ _ =>
      .ok (some (.str [XmlEvent.startElement "node" [],
                       XmlEvent.errorEvent])) }

/-- The state after resolving `org.example.A` once under `denyOracle`. -/
def denyFs : DbusFs :=
  run denyOracle DbusFs.init [Op.mkInode ["org.example.A"]]

/-- The attribute record `make_inode` materializes for `org.example.A`
under `denyOracle` on the fresh mount: the AccessDenied placeholder. -/
def denyAttr : FileAttr :=
  { ino := 2, size := 0, blocks := 1,
    atime := CREATE_TIME, mtime := CREATE_TIME, ctime := CREATE_TIME,
    crtime := CREATE_TIME, kind := .Directory, perm := 0o750, nlink := 0,
    uid := 0, gid := 0, rdev := 0, flags := 0 }

/-- The state after resolving `org.example.A` and then `org.example.B`
under `denyOracle`. -/
def denyFs2 : DbusFs :=
  run denyOracle DbusFs.init
    [Op.mkInode ["org.example.A"], Op.mkInode ["org.example.B"]]

/-- The state after resolving `org.example.A` once under
`childDocOracle`. -/
def childFs : DbusFs :=
  run childDocOracle DbusFs.init [Op.mkInode ["org.example.A"]]

/-- The attribute contract a committed entry satisfies: every entry
`make_inode` materializes is a directory of size 0 whose permission bits
and link count are determined by the (fixed) introspection outcome of its
virtual path — 0755 and the child count for a parsed document, 0750 and 0
for AccessDenied. -/
def attrOk (oracle : BusOracle) (p : List String) (a : FileAttr) : Prop :=
  a.kind = FileType.Directory ∧ a.size = 0 ∧
  ∃ d o, split_path p = some (d, o) ∧
    ((∃ ni, DbusFs.introspect oracle d o = Except.ok (some ni) ∧
        a.perm = 0o755 ∧ a.nlink = ni.nodes.length) ∨
     (DbusFs.introspect oracle d o = Except.error (some DBUS_ACCESS_ERROR) ∧
        a.perm = 0o750 ∧ a.nlink = 0))

/-- Invariant of every reachable `DbusFs` state: the allocation counter
stays at least 2 and strictly above every committed id; every committed id
is at least 2 (above the reserved root id 1); the `(parent, name)`-keyed
view of `inodes` and the `inode_name` table stay empty (nothing ever
writes the former, and the latter is only written under a successful read
of itself); the path table is a partial bijection (functional in both
directions); the attribute table is functional; and every committed path
carries attributes satisfying `attrOk`. -/
structure FsInv (oracle : BusOracle) (fs : DbusFs) : Prop where
  hcnt : 2 ≤ fs.last_inode
  hcache : fs.lookupCache = []
  hnames : fs.inode_name = []
  hino : ∀ e ∈ fs.inodes, 2 ≤ e.1 ∧ e.1 < fs.last_inode
  hattr : ∀ e ∈ fs.inode_attr, 2 ≤ e.1 ∧ e.1 < fs.last_inode
  hinofun : ∀ i p q, (i, p) ∈ fs.inodes → (i, q) ∈ fs.inodes → p = q
  hpathfun : ∀ i j p, (i, p) ∈ fs.inodes → (j, p) ∈ fs.inodes → i = j
  hattrfun : ∀ i a b, (i, a) ∈ fs.inode_attr → (i, b) ∈ fs.inode_attr → a = b
  hspec : ∀ i p, (i, p) ∈ fs.inodes →
    ∃ a, (i, a) ∈ fs.inode_attr ∧ a.ino = i ∧ attrOk oracle p a

/-! ## Supporting lemmas -/

theorem alistFind_mem {α β : Type} [DecidableEq α] {k : α} {v : β}
    {l : List (α × β)} (h : alistFind k l = some v) : (k, v) ∈ l := by
  induction l with
  | nil => exact absurd h (by simp [alistFind])
  | cons e rest ih =>
    unfold alistFind at h
    split at h
    · rename_i he
      have : (k, v) = e := by
        cases e
        cases h
        simp_all
      rw [this]
      exact List.mem_cons_self _ _
    · exact List.mem_cons_of_mem _ (ih h)

theorem alistFind_eq_of_mem {α β : Type} [DecidableEq α] {k : α} {v : β}
    {l : List (α × β)}
    (hfun : ∀ v' w', (k, v') ∈ l → (k, w') ∈ l → v' = w')
    (h : (k, v) ∈ l) : alistFind k l = some v := by
  induction l with
  | nil => exact absurd h (by simp)
  | cons e rest ih =>
    unfold alistFind
    split
    · rename_i he
      have h1 : (k, e.2) ∈ e :: rest := by
        rw [show (k, e.2) = e from by cases e; simp_all]
        exact List.mem_cons_self _ _
      rw [hfun e.2 v h1 h]
    · rename_i he
      rcases List.mem_cons.mp h with h' | h'
      · exact absurd (congrArg Prod.fst h'.symm) he
      · exact ih
          (fun v' w' hv hw =>
            hfun v' w' (List.mem_cons_of_mem _ hv) (List.mem_cons_of_mem _ hw))
          h'

theorem findPath_some {p : List String} {l : List (Nat × List String)}
    {e : Nat × List String} (h : findPath p l = some e) : e ∈ l ∧ e.2 = p := by
  unfold findPath at h
  refine ⟨List.mem_of_find?_eq_some h, ?_⟩
  have hp := List.find?_some h
  simpa using hp

theorem findPath_none {p : List String} {l : List (Nat × List String)}
    (h : findPath p l = none) : ∀ e ∈ l, e.2 ≠ p := by
  unfold findPath at h
  intro e he
  have := List.find?_eq_none.mp h e he
  simpa using this

theorem findPath_isSome_of_mem {i : Nat} {p : List String}
    {l : List (Nat × List String)} (h : (i, p) ∈ l) : findPath p l ≠ none :=
  fun hn => absurd rfl (findPath_none hn (i, p) h)

/-- Case analysis on `make_inode`: either the path is cached and the state
is unchanged, or the path is fresh and the call either only burns an id or
commits an entry whose permission bits and link count are fixed by the
introspection outcome. -/
theorem make_inode_char (oracle : BusOracle) (fs : DbusFs) (p : List String) :
    (∃ e, findPath p fs.inodes = some e ∧
      DbusFs.make_inode oracle fs p = (alistFind e.1 fs.inode_attr, fs)) ∨
    (findPath p fs.inodes = none ∧
      (DbusFs.make_inode oracle fs p =
          (none, { fs with last_inode := fs.last_inode + 1 }) ∨
       ∃ d o perm nlink,
          split_path p = some (d, o) ∧
          DbusFs.make_inode oracle fs p =
            mkCommit { fs with last_inode := fs.last_inode + 1 } p
              fs.last_inode ((oracle.getUnixUser d).getD 0)
              ((oracle.primaryGroup ((oracle.getUnixUser d).getD 0)).getD 0)
              perm nlink ∧
          ((∃ ni, DbusFs.introspect oracle d o = Except.ok (some ni) ∧
              perm = 0o755 ∧ nlink = ni.nodes.length) ∨
           (DbusFs.introspect oracle d o =
              Except.error (some DBUS_ACCESS_ERROR) ∧
              perm = 0o750 ∧ nlink = 0)))) := by
  unfold DbusFs.make_inode
  rcases hfp : findPath p fs.inodes with _ | e
  · right
    refine ⟨rfl, ?_⟩
    dsimp only
    rcases hsp : split_path p with _ | ⟨d, o⟩
    · left
      rfl
    · dsimp only
      rcases hint : DbusFs.introspect oracle d o with en | oni
      · dsimp only
        by_cases hacc : en = some DBUS_ACCESS_ERROR
        · right
          refine ⟨d, o, 0o750, 0, rfl, ?_, Or.inr ⟨by rw [hint, hacc], rfl, rfl⟩⟩
          rw [if_pos hacc]
        · left
          rw [if_neg hacc]
      · rcases oni with _ | ni
        · left
          rfl
        · right
          exact ⟨d, o, 0o755, ni.nodes.length, rfl, rfl, Or.inl ⟨ni, hint, rfl, rfl⟩⟩
  · left
    exact ⟨e, rfl, rfl⟩

theorem Argument.foldl_dir_const (attrs : List (String × String))
    (h : ∀ kv ∈ attrs, kv.1 ≠ "direction")
    (acc : Option String × Option String × Direction) :
    (attrs.foldl Argument.updAttr acc).2.2 = acc.2.2 := by
  induction attrs generalizing acc with
  | nil => rfl
  | cons kv rest ih =>
    have hkv : kv.1 ≠ "direction" := h kv (List.mem_cons_self _ _)
    have hrest : ∀ e ∈ rest, e.1 ≠ "direction" :=
      fun e he => h e (List.mem_cons_of_mem _ he)
    rw [List.foldl_cons, ih hrest]
    unfold Argument.updAttr
    split_ifs <;> rfl

theorem Property.foldl_access_const (attrs : List (String × String))
    (h : ∀ kv ∈ attrs, kv.1 ≠ "access" ∧ kv.1 ≠ "direction")
    (acc : Option String × Option String × Access) :
    (attrs.foldl Property.updAttr acc).2.2 = acc.2.2 := by
  induction attrs generalizing acc with
  | nil => rfl
  | cons kv rest ih =>
    have hkv := h kv (List.mem_cons_self _ _)
    have hrest : ∀ e ∈ rest, e.1 ≠ "access" ∧ e.1 ≠ "direction" :=
      fun e he => h e (List.mem_cons_of_mem _ he)
    rw [List.foldl_cons, ih hrest]
    unfold Property.updAttr
    split_ifs <;> first
      | rfl
      | exact (show kv.1 = "access" ∨ kv.1 = "direction" from by assumption).elim
          (fun hc => absurd hc hkv.1) (fun hc => absurd hc hkv.2)

theorem fsInv_init (oracle : BusOracle) : FsInv oracle DbusFs.init := by
  constructor <;> simp [DbusFs.init]

/-- `make_inode` preserves the state invariant and never removes a
committed entry. -/
theorem make_inode_pres (oracle : BusOracle) (fs : DbusFs) (p : List String)
    (h : FsInv oracle fs) :
    FsInv oracle (DbusFs.make_inode oracle fs p).2 ∧
    (∀ e, e ∈ fs.inodes → e ∈ (DbusFs.make_inode oracle fs p).2.inodes) ∧
    (∀ e, e ∈ fs.inode_attr → e ∈ (DbusFs.make_inode oracle fs p).2.inode_attr) := by
  rcases make_inode_char oracle fs p with ⟨e, hfp, heq⟩ |
    ⟨hfp, heq | ⟨d, o, perm, nlink, hsp, heq, hdisj⟩⟩
  · rw [heq]
    exact ⟨h, fun e he => he, fun e he => he⟩
  · rw [heq]
    refine ⟨⟨Nat.le_succ_of_le h.hcnt, h.hcache, h.hnames, ?_, ?_,
      h.hinofun, h.hpathfun, h.hattrfun, h.hspec⟩,
      fun e he => he, fun e he => he⟩
    · exact fun e he => ⟨(h.hino e he).1, Nat.lt_succ_of_lt (h.hino e he).2⟩
    · exact fun e he => ⟨(h.hattr e he).1, Nat.lt_succ_of_lt (h.hattr e he).2⟩
  · rw [heq]
    refine ⟨⟨Nat.le_succ_of_le h.hcnt, h.hcache, h.hnames, ?_, ?_, ?_, ?_, ?_, ?_⟩,
      fun e he => List.mem_cons_of_mem _ he, fun e he => List.mem_cons_of_mem _ he⟩
    · intro e he
      rcases List.mem_cons.mp he with he' | he'
      · rw [he']
        exact ⟨h.hcnt, Nat.lt_succ_self _⟩
      · exact ⟨(h.hino e he').1, Nat.lt_succ_of_lt (h.hino e he').2⟩
    · intro e he
      rcases List.mem_cons.mp he with he' | he'
      · rw [he']
        exact ⟨h.hcnt, Nat.lt_succ_self _⟩
      · exact ⟨(h.hattr e he').1, Nat.lt_succ_of_lt (h.hattr e he').2⟩
    · intro i p1 p2 h1 h2
      rcases List.mem_cons.mp h1 with h1' | h1' <;>
        rcases List.mem_cons.mp h2 with h2' | h2'
      · injection h1' with hi1 hp1
        injection h2' with hi2 hp2
        rw [hp1, hp2]
      · injection h1' with hi1 hp1
        exact absurd ((h.hino _ h2').2) (by rw [hi1]; exact Nat.lt_irrefl _)
      · injection h2' with hi2 hp2
        exact absurd ((h.hino _ h1').2) (by rw [hi2]; exact Nat.lt_irrefl _)
      · exact h.hinofun i p1 p2 h1' h2'
    · intro i j q h1 h2
      rcases List.mem_cons.mp h1 with h1' | h1' <;>
        rcases List.mem_cons.mp h2 with h2' | h2'
      · injection h1' with hi1 hq1
        injection h2' with hi2 hq2
        rw [hi1, hi2]
      · injection h1' with hi1 hq1
        exact absurd (findPath_none hfp _ h2') (by rw [hq1]; simp)
      · injection h2' with hi2 hq2
        exact absurd (findPath_none hfp _ h1') (by rw [hq2]; simp)
      · exact h.hpathfun i j q h1' h2'
    · intro i a b h1 h2
      rcases List.mem_cons.mp h1 with h1' | h1' <;>
        rcases List.mem_cons.mp h2 with h2' | h2'
      · injection h1' with hi1 ha1
        injection h2' with hi2 ha2
        rw [ha1, ha2]
      · injection h1' with hi1 ha1
        exact absurd ((h.hattr _ h2').2) (by rw [hi1]; exact Nat.lt_irrefl _)
      · injection h2' with hi2 ha2
        exact absurd ((h.hattr _ h1').2) (by rw [hi2]; exact Nat.lt_irrefl _)
      · exact h.hattrfun i a b h1' h2'
    · intro i q hm
      rcases List.mem_cons.mp hm with hm' | hm'
      · injection hm' with hi hq
        subst hi
        subst hq
        refine ⟨commitAttr fs.last_inode ((oracle.getUnixUser d).getD 0)
          ((oracle.primaryGroup ((oracle.getUnixUser d).getD 0)).getD 0) perm nlink,
          List.mem_cons_self _ _, rfl, rfl, rfl, d, o, hsp, ?_⟩
        rcases hdisj with ⟨ni, hi, hperm, hnlink⟩ | ⟨hi, hperm, hnlink⟩
        · exact Or.inl ⟨ni, hi, hperm, hnlink⟩
        · exact Or.inr ⟨hi, hperm, hnlink⟩
      · obtain ⟨a, ha, haino, hok⟩ := h.hspec i q hm'
        exact ⟨a, List.mem_cons_of_mem _ ha, haino, hok⟩

/-- On an invariant state the `lookup` call is a no-op replying ENOENT:
its cache check reads a view that is never written, and its fallback
requires the parent in `inode_name`, which is never populated. -/
theorem lookup_noop (oracle : BusOracle) (fs : DbusFs) (parent : Nat)
    (name : String) (h : FsInv oracle fs) :
    DbusFs.lookup oracle fs parent name = (LookupOut.err ENOENT, fs) := by
  unfold DbusFs.lookup
  rw [h.hcache, h.hnames]
  rfl

/-- The readdir child loop preserves the invariant and never removes a
committed entry. -/
theorem listChildren_pres (oracle : BusOracle)
    (items : List (String × List String)) :
    ∀ (acc : List (Nat × FileType × String)) (fs : DbusFs), FsInv oracle fs →
      FsInv oracle (listChildren oracle items (acc, fs)).2 ∧
      (∀ e, e ∈ fs.inodes → e ∈ (listChildren oracle items (acc, fs)).2.inodes) ∧
      (∀ e, e ∈ fs.inode_attr →
        e ∈ (listChildren oracle items (acc, fs)).2.inode_attr) := by
  induction items with
  | nil => exact fun acc fs h => ⟨h, fun e he => he, fun e he => he⟩
  | cons it rest ih =>
    intro acc fs h
    have hmk := make_inode_pres oracle fs it.2 h
    have hstep : ∃ acc', listChildren oracle (it :: rest) (acc, fs) =
        listChildren oracle rest (acc', (DbusFs.make_inode oracle fs it.2).2) := by
      unfold listChildren
      rw [List.foldl_cons]
      rcases hr : DbusFs.make_inode oracle fs it.2 with ⟨r, fs'⟩
      rcases r with _ | attr
      · exact ⟨acc, rfl⟩
      · exact ⟨acc ++ [(attr.ino, attr.kind, it.1)], rfl⟩
    obtain ⟨acc', heq⟩ := hstep
    rw [heq]
    have hr := ih acc' (DbusFs.make_inode oracle fs it.2).2 hmk.1
    exact ⟨hr.1,
      fun e he => hr.2.1 e (hmk.2.1 e he),
      fun e he => hr.2.2 e (hmk.2.2 e he)⟩

/-- `readdir` preserves the invariant and never removes a committed
entry. -/
theorem readdir_pres (oracle : BusOracle) (fs : DbusFs) (ino offset : Nat)
    (h : FsInv oracle fs) :
    FsInv oracle (DbusFs.readdir oracle fs ino offset).2 ∧
    (∀ e, e ∈ fs.inodes → e ∈ (DbusFs.readdir oracle fs ino offset).2.inodes) ∧
    (∀ e, e ∈ fs.inode_attr →
      e ∈ (DbusFs.readdir oracle fs ino offset).2.inode_attr) := by
  unfold DbusFs.readdir
  by_cases h1 : ino = 1
  · rw [if_pos h1]
    rcases hn : oracle.listNames with _ | names
    · exact ⟨h, fun e he => he, fun e he => he⟩
    · exact listChildren_pres oracle _ [] fs h
  · rw [if_neg h1]
    rcases hp : fs.path_by_inode ino with _ | parent
    · exact ⟨h, fun e he => he, fun e he => he⟩
    · dsimp only
      rcases hsp : split_path parent with _ | ⟨d, o⟩
      · exact ⟨h, fun e he => he, fun e he => he⟩
      · dsimp only
        rcases hint : DbusFs.introspect oracle d o with en | oni
        · dsimp only
          split_ifs
          · exact ⟨h, fun e he => he, fun e he => he⟩
          · exact ⟨h, fun e he => he, fun e he => he⟩
        · rcases oni with _ | ni
          · exact ⟨h, fun e he => he, fun e he => he⟩
          · exact listChildren_pres oracle _ [] fs h

/-- Each served request preserves the invariant and never removes a
committed entry. -/
theorem step_pres (oracle : BusOracle) (fs : DbusFs) (op : Op)
    (h : FsInv oracle fs) :
    FsInv oracle (step oracle fs op) ∧
    (∀ e, e ∈ fs.inodes → e ∈ (step oracle fs op).inodes) ∧
    (∀ e, e ∈ fs.inode_attr → e ∈ (step oracle fs op).inode_attr) := by
  rcases op with p | ⟨parent, name⟩ | ⟨ino, offset⟩
  · exact make_inode_pres oracle fs p h
  · show FsInv oracle (DbusFs.lookup oracle fs parent name).2 ∧
      (∀ e, e ∈ fs.inodes → e ∈ (DbusFs.lookup oracle fs parent name).2.inodes) ∧
      (∀ e, e ∈ fs.inode_attr →
        e ∈ (DbusFs.lookup oracle fs parent name).2.inode_attr)
    rw [lookup_noop oracle fs parent name h]
    exact ⟨h, fun e he => he, fun e he => he⟩
  · exact readdir_pres oracle fs ino offset h

/-- Request sequences preserve the invariant and never remove a committed
entry. -/
theorem run_pres (oracle : BusOracle) (ops : List Op) :
    ∀ fs : DbusFs, FsInv oracle fs →
      FsInv oracle (run oracle fs ops) ∧
      (∀ e, e ∈ fs.inodes → e ∈ (run oracle fs ops).inodes) ∧
      (∀ e, e ∈ fs.inode_attr → e ∈ (run oracle fs ops).inode_attr) := by
  induction ops with
  | nil => exact fun fs h => ⟨h, fun e he => he, fun e he => he⟩
  | cons op rest ih =>
    intro fs h
    have hs := step_pres oracle fs op h
    have hr := ih (step oracle fs op) hs.1
    exact ⟨hr.1,
      fun e he => hr.2.1 e (hs.2.1 e he),
      fun e he => hr.2.2 e (hs.2.2 e he)⟩

/-- Every reachable state satisfies the invariant. -/
theorem reachable_inv (oracle : BusOracle) (fs : DbusFs)
    (h : reachable oracle fs) : FsInv oracle fs := by
  obtain ⟨ops, hops⟩ := h
  rw [← hops]
  exact (run_pres oracle ops DbusFs.init (fsInv_init oracle)).1

/-- A successful `make_inode` leaves the returned id committed for its
path with exactly the returned attributes. -/
theorem make_inode_some_commits (oracle : BusOracle) (fs : DbusFs)
    (p : List String) (a : FileAttr) (h : FsInv oracle fs)
    (hres : (DbusFs.make_inode oracle fs p).1 = some a) :
    (a.ino, p) ∈ (DbusFs.make_inode oracle fs p).2.inodes ∧
    (a.ino, a) ∈ (DbusFs.make_inode oracle fs p).2.inode_attr := by
  rcases make_inode_char oracle fs p with ⟨e, hfp, heq⟩ |
    ⟨hfp, heq | ⟨d, o, perm, nlink, hsp, heq, hdisj⟩⟩
  · rw [heq] at hres ⊢
    dsimp only at hres ⊢
    have hmem := alistFind_mem hres
    obtain ⟨hel, hep⟩ := findPath_some hfp
    have hep' : (e.1, p) ∈ fs.inodes := by
      rw [show (e.1, p) = e from by cases e; simp_all]
      exact hel
    obtain ⟨a', ha', haino, hok⟩ := h.hspec e.1 p hep'
    have : a = a' := h.hattrfun e.1 a a' hmem ha'
    rw [this, haino]
    exact ⟨hep', ha'⟩
  · rw [heq] at hres
    exact absurd hres (by simp)
  · rw [heq] at hres ⊢
    dsimp only [mkCommit] at hres ⊢
    rw [Option.some.injEq] at hres
    rw [← hres]
    exact ⟨List.mem_cons_self _ _, List.mem_cons_self _ _⟩

/-- Resolving a path that is already committed returns its committed id. -/
theorem make_inode_returns_cached (oracle : BusOracle) (fs : DbusFs)
    (i : Nat) (p : List String) (a : FileAttr) (h : FsInv oracle fs)
    (hmem : (i, p) ∈ fs.inodes)
    (hres : (DbusFs.make_inode oracle fs p).1 = some a) : a.ino = i := by
  rcases make_inode_char oracle fs p with ⟨e, hfp, heq⟩ |
    ⟨hfp, heq | ⟨d, o, perm, nlink, hsp, heq, hdisj⟩⟩
  · rw [heq] at hres
    dsimp only at hres
    have hmem' := alistFind_mem hres
    obtain ⟨hel, hep⟩ := findPath_some hfp
    have hep' : (e.1, p) ∈ fs.inodes := by
      rw [show (e.1, p) = e from by cases e; simp_all]
      exact hel
    have hei : e.1 = i := h.hpathfun e.1 i p hep' hmem
    obtain ⟨a', ha', haino, hok⟩ := h.hspec e.1 p hep'
    have : a = a' := h.hattrfun e.1 a a' hmem' ha'
    rw [this, haino, hei]
  · exact absurd hfp (findPath_isSome_of_mem hmem)
  · exact absurd hfp (findPath_isSome_of_mem hmem)

/-! ## Claim theorems -/

/-- C6: parsing the document
`<node><interface name="org.example.Foo"><method name="Bar"><arg name="x"
type="s" direction="in"/></method></interface><node name="child"/></node>`
(given as the event stream the XML reader yields for it, document
start/end included) yields exactly one interface `org.example.Foo` with
one method `Bar` having one In-direction argument of type signature `s`,
and one child node named `child`. -/
theorem c6_parse_example_document :
    NodeInfo.from_str
      [XmlEvent.otherEvent,
       XmlEvent.startElement "node" [],
       XmlEvent.startElement "interface" [("name", "org.example.Foo")],
       XmlEvent.startElement "method" [("name", "Bar")],
       XmlEvent.startElement "arg" [("name", "x"), ("type", "s"), ("direction", "in")],
       XmlEvent.endElement "arg",
       XmlEvent.endElement "method",
       XmlEvent.endElement "interface",
       XmlEvent.startElement "node" [("name", "child")],
       XmlEvent.endElement "node",
       XmlEvent.endElement "node",
       XmlEvent.otherEvent] =
    Except.ok
      { nodes := [{ name := "child" }],
        interfaces :=
          [{ name := "org.example.Foo",
             methods := [{ name := "Bar",
                           args := [({ name := "x", typesig := "s" }, Direction.In)],
                           annos := [] }],
             properties := [], signals := [], annos := [] }] } := by
  simp [NodeInfo.from_str, NodeInfo.from_xml, NodeInfo.from_xml_go, NodeInfo.upd,
        startNamed, get_name, Interface.from_xml, Interface.from_xml_go,
        Interface.upd, isEndOf, Method.from_xml, Method.from_xml_go, Method.upd,
        Argument.from_xml, Argument.updAttr]

/-- C5 (code bug): a well-formed `<signal name="S">` element inside an
interface is dropped by the parser: `Interface::from_xml` matches the
element name `"signals"` (src/node.rs line 157) while the XML element is
named `signal` (as `Signal::from_xml`'s own close-tag check on line 211
expects), so parsing
`<node><interface name="I"><signal name="S"><arg name="a" type="s"/></signal></interface></node>`
yields the interface with an empty signals sequence instead of signal `S`. -/
theorem c5_signal_element_dropped :
    NodeInfo.from_xml
      [XmlEvent.startElement "node" [],
       XmlEvent.startElement "interface" [("name", "I")],
       XmlEvent.startElement "signal" [("name", "S")],
       XmlEvent.startElement "arg" [("name", "a"), ("type", "s")],
       XmlEvent.endElement "arg",
       XmlEvent.endElement "signal",
       XmlEvent.endElement "interface",
       XmlEvent.endElement "node"] =
    { nodes := [],
      interfaces := [{ name := "I", methods := [], properties := [],
                       signals := [], annos := [] }] } := by
  simp [NodeInfo.from_xml, NodeInfo.from_xml_go, NodeInfo.upd,
        startNamed, get_name, Interface.from_xml, Interface.from_xml_go,
        Interface.upd, isEndOf]

/-- C7 (counterexample): a `property` element with no `access` attribute
does not always default to ReadWrite — the source treats `direction` as an
alias for `access` (src/node.rs line 300), so
`<property name="p" type="s" direction="read"/>` parses with access
`Read` although no `access` attribute is present. -/
theorem c7_property_direction_counterexample :
    (([("name", "p"), ("type", "s"), ("direction", "read")] :
        List (String × String)).all (fun kv => kv.1 != "access") = true) ∧
    Property.from_xml [("name", "p"), ("type", "s"), ("direction", "read")] =
      some { name := "p", typesig := "s", access := Access.Read, annos := [] } := by
  constructor
  · decide
  · rfl

/-- C7 (amended): an `arg` element without a `direction` attribute parses
with direction `In`; a `property` element with neither an `access` nor a
`direction` attribute (the source reads both as access) parses with access
`ReadWrite`. -/
theorem c7_defaults (attrsA attrsP : List (String × String)) (a : Argument)
    (d : Direction) (p : Property)
    (hA : ∀ kv ∈ attrsA, kv.1 ≠ "direction")
    (hP : ∀ kv ∈ attrsP, kv.1 ≠ "access" ∧ kv.1 ≠ "direction")
    (hargres : Argument.from_xml attrsA = some (a, d))
    (hpropres : Property.from_xml attrsP = some p) :
    d = Direction.In ∧ p.access = Access.ReadWrite := by
  constructor
  · have hdir := Argument.foldl_dir_const attrsA hA
      ((none : Option String), (none : Option String), Direction.In)
    unfold Argument.from_xml at hargres
    split at hargres
    · rename_i n t d' heq
      rw [heq] at hdir
      cases hargres
      exact hdir
    · exact absurd hargres (by simp)
  · have hacc := Property.foldl_access_const attrsP hP
      ((none : Option String), (none : Option String), Access.ReadWrite)
    unfold Property.from_xml at hpropres
    split at hpropres
    · rename_i n t a' heq
      rw [heq] at hacc
      cases hpropres
      exact hacc
    · exact absurd hpropres (by simp)

/-- C7 witness: the defaults theorem applied to
`<arg name="x" type="s"/>` and `<property name="p" type="s"/>`. -/
theorem c7_defaults_witness :
    (∀ kv ∈ ([("name", "x"), ("type", "s")] : List (String × String)),
        kv.1 ≠ "direction") ∧
    (∀ kv ∈ ([("name", "p"), ("type", "s")] : List (String × String)),
        kv.1 ≠ "access" ∧ kv.1 ≠ "direction") ∧
    (Direction.In = Direction.In ∧
      Access.ReadWrite = Access.ReadWrite) :=
  ⟨by decide, by decide,
    c7_defaults [("name", "x"), ("type", "s")] [("name", "p"), ("type", "s")]
      { name := "x", typesig := "s" } Direction.In
      { name := "p", typesig := "s", access := Access.ReadWrite, annos := [] }
      (by decide) (by decide) rfl rfl⟩

/-- C9 (counterexample): a fundamentally malformed document does not fail
the parse.  On the event stream of `<node><node name="a">` followed by a
reader error for the malformed remainder, `FromStr for NodeInfo` still
returns `Ok` with the partial content, because `from_str` wraps
`from_xml` in `Ok` unconditionally and every non-`Ok(..)` event is
skipped. -/
theorem c9_malformed_still_parses :
    NodeInfo.from_str
      [XmlEvent.startElement "node" [],
       XmlEvent.startElement "node" [("name", "a")],
       XmlEvent.errorEvent] =
    Except.ok { nodes := [{ name := "a" }], interfaces := [] } := by
  simp [NodeInfo.from_str, NodeInfo.from_xml, NodeInfo.from_xml_go, NodeInfo.upd,
        startNamed, get_name]

/-- C9 (amended): parsing never fails — for every event stream (malformed
documents included) `from_str` returns `Ok` of the structurally recognized
content, and `DbusFs::introspect` treats any string reply as a
successfully parsed document rather than reporting a failure. -/
theorem c9_parse_never_fails (oracle : BusOracle) (dest : String)
    (object : List String) (events : List XmlEvent)
    (h : oracle.introspectReply dest object =
      WireReply.ok (some (WireItem.str events))) :
    NodeInfo.from_str events = Except.ok (NodeInfo.from_xml events) ∧
    DbusFs.introspect oracle dest object =
      Except.ok (some (NodeInfo.from_xml events)) := by
  refine ⟨rfl, ?_⟩
  unfold DbusFs.introspect
  rw [h]
  rfl

/-- C9 witness: the amended theorem applied to `malformedDocOracle`. -/
theorem c9_parse_never_fails_witness :
    malformedDocOracle.introspectReply "org.example.A" [] =
      WireReply.ok (some (WireItem.str
        [XmlEvent.startElement "node" [], XmlEvent.errorEvent])) ∧
    (NodeInfo.from_str [XmlEvent.startElement "node" [], XmlEvent.errorEvent] =
        Except.ok (NodeInfo.from_xml
          [XmlEvent.startElement "node" [], XmlEvent.errorEvent]) ∧
      DbusFs.introspect malformedDocOracle "org.example.A" [] =
        Except.ok (some (NodeInfo.from_xml
          [XmlEvent.startElement "node" [], XmlEvent.errorEvent]))) :=
  ⟨rfl, c9_parse_never_fails malformedDocOracle "org.example.A" []
    [XmlEvent.startElement "node" [], XmlEvent.errorEvent] rfl⟩

/-- C10: the attribute record `file_attr_file` builds for a member leaf
(method, property, signal or annotation) has kind Directory (the source
sets `FileType::Directory` on line 158, not a regular file), permission
bits 0644, link count 1 and size 0, for every inode id. -/
theorem c10_member_leaf_attrs (ino : Nat) :
    (DbusFs.file_attr_file ino).kind = FileType.Directory ∧
    (DbusFs.file_attr_file ino).perm = 0o644 ∧
    (DbusFs.file_attr_file ino).nlink = 1 ∧
    (DbusFs.file_attr_file ino).size = 0 :=
  ⟨rfl, rfl, rfl, rfl⟩

/-- C2 (counterexample): resolving a bus name whose root object
introspects to the empty document `<node/>` (zero children) materializes
an entry with permission bits 0755 but link count 0, not 2 + 0 = 2: the
source sets `nlink` to `node_info.nodes.len()` (src/main.rs line 104),
not to 2 plus the child count. -/
theorem c2_zero_children_counterexample :
    (DbusFs.make_inode emptyDocOracle DbusFs.init ["org.example.A"]).1.map
        (fun a => (a.perm, a.nlink)) = some (0o755, 0) ∧
    (DbusFs.make_inode emptyDocOracle DbusFs.init ["org.example.A"]).1.map
        (fun a => a.nlink) ≠ some 2 := by
  constructor
  · simp [DbusFs.make_inode, findPath, split_path, DbusFs.introspect,
          emptyDocOracle, emptyDocEvents, NodeInfo.from_str, NodeInfo.from_xml,
          NodeInfo.from_xml_go, NodeInfo.upd, startNamed, get_name, mkCommit,
          commitAttr, DbusFs.init]
  · simp [DbusFs.make_inode, findPath, split_path, DbusFs.introspect,
          emptyDocOracle, emptyDocEvents, NodeInfo.from_str, NodeInfo.from_xml,
          NodeInfo.from_xml_go, NodeInfo.upd, startNamed, get_name, mkCommit,
          commitAttr, DbusFs.init]

/-- C2 (amended): when a fresh path resolves and introspection returns a
parsed document, the materialized attributes have permission bits 0755 and
link count equal to the number of child nodes of the document (not 2 plus
that number). -/
theorem c2_resolved_dir_attrs (oracle : BusOracle) (fs : DbusFs)
    (p : List String) (d : String) (o : List String) (ni : NodeInfo)
    (a : FileAttr)
    (hmiss : findPath p fs.inodes = none)
    (hsplit : split_path p = some (d, o))
    (hint : DbusFs.introspect oracle d o = Except.ok (some ni))
    (hres : (DbusFs.make_inode oracle fs p).1 = some a) :
    a.perm = 0o755 ∧ a.nlink = ni.nodes.length := by
  unfold DbusFs.make_inode at hres
  rw [hmiss, hsplit] at hres
  dsimp only at hres
  rw [hint] at hres
  dsimp only [mkCommit] at hres
  rw [Option.some.injEq] at hres
  rw [← hres]
  exact ⟨rfl, rfl⟩

/-- C2 witness: the amended theorem applied to the empty-document bus on
the fresh mount. -/
theorem c2_resolved_dir_attrs_witness :
    findPath ["org.example.A"] DbusFs.init.inodes = none ∧
    split_path ["org.example.A"] = some ("org.example.A", []) ∧
    DbusFs.introspect emptyDocOracle "org.example.A" [] =
      Except.ok (some emptyDocNodeInfo) ∧
    (DbusFs.make_inode emptyDocOracle DbusFs.init ["org.example.A"]).1 =
      some emptyDocAttr ∧
    (emptyDocAttr.perm = 0o755 ∧
      emptyDocAttr.nlink = emptyDocNodeInfo.nodes.length) :=
  ⟨rfl, rfl, rfl, rfl,
    c2_resolved_dir_attrs emptyDocOracle DbusFs.init ["org.example.A"]
      "org.example.A" [] emptyDocNodeInfo emptyDocAttr rfl rfl rfl rfl⟩

/-- C1: resolution is idempotent for the lifetime of the mount.  In any
reachable state, resolving a virtual path that returns an inode id, then
serving any further request sequence, and resolving the same path again
returns the same inode id — and the `lookup` fallback never produces an
entry at all (it always replies ENOENT, because nothing ever populates the
tables it reads), so every id-returning resolution, whether triggered by a
directory listing or a lookup attempt, goes through `make_inode`, whose
path-keyed cache check makes it idempotent. -/
theorem c1_resolution_idempotent (oracle : BusOracle) (fs1 fs2 : DbusFs)
    (p : List String) (a1 a2 : FileAttr) (parent : Nat) (name : String)
    (h0 : reachable oracle fs1)
    (h1 : (DbusFs.make_inode oracle fs1 p).1 = some a1)
    (h2 : ∃ ops, run oracle (DbusFs.make_inode oracle fs1 p).2 ops = fs2)
    (h3 : (DbusFs.make_inode oracle fs2 p).1 = some a2) :
    a1.ino = a2.ino ∧
    (DbusFs.lookup oracle fs1 parent name).1 = LookupOut.err ENOENT := by
  have hInv1 := reachable_inv oracle fs1 h0
  have hcommit := make_inode_some_commits oracle fs1 p a1 hInv1 h1
  have hInv1' := (make_inode_pres oracle fs1 p hInv1).1
  obtain ⟨ops, hops⟩ := h2
  have hrun := run_pres oracle ops (DbusFs.make_inode oracle fs1 p).2 hInv1'
  rw [hops] at hrun
  have hmem2 : (a1.ino, p) ∈ fs2.inodes := hrun.2.1 _ hcommit.1
  have hc := make_inode_returns_cached oracle fs2 a1.ino p a2 hrun.1 hmem2 h3
  exact ⟨hc.symm, by rw [lookup_noop oracle fs1 parent name hInv1]⟩

/-- C1 witness: resolving `org.example.A` twice under `denyOracle` yields
inode 2 both times. -/
theorem c1_resolution_idempotent_witness :
    reachable denyOracle DbusFs.init ∧
    (DbusFs.make_inode denyOracle DbusFs.init ["org.example.A"]).1 =
      some denyAttr ∧
    (∃ ops, run denyOracle
      (DbusFs.make_inode denyOracle DbusFs.init ["org.example.A"]).2 ops =
        denyFs) ∧
    (DbusFs.make_inode denyOracle denyFs ["org.example.A"]).1 =
      some denyAttr ∧
    (denyAttr.ino = denyAttr.ino ∧
      (DbusFs.lookup denyOracle DbusFs.init 1 "x").1 = LookupOut.err ENOENT) :=
  ⟨⟨[], rfl⟩, rfl, ⟨[], rfl⟩, rfl,
    c1_resolution_idempotent denyOracle DbusFs.init denyFs ["org.example.A"]
      denyAttr denyAttr 1 "x" ⟨[], rfl⟩ rfl ⟨[], rfl⟩ rfl⟩

/-- C3 (code bug): `lookup` of an AccessDenied object in its committed
parent replies ENOENT instead of producing the 0750 placeholder entry.
Concretely: after resolving bus name `org.example.A` (whose root object
lists child `o`, and introspecting `/o` yields AccessDenied), the lookup
of `o` under the parent's inode 2 replies ENOENT and commits nothing —
its cache check reads a `(parent, name)`-keyed view no code writes, and
its fallback needs inode 2 in `inode_name`, which `make_inode` never
populates (only the fallback itself does, behind that very check). -/
theorem c3_lookup_denied_object_eval :
    childDocOracle.introspectReply "org.example.A" ["o"] =
      WireReply.error (some DBUS_ACCESS_ERROR) ∧
    childFs.inode_name = [] ∧
    (DbusFs.lookup childDocOracle childFs 2 "o").1 = LookupOut.err ENOENT ∧
    (DbusFs.lookup childDocOracle childFs 2 "o").2 = childFs :=
  ⟨rfl, rfl, rfl, rfl⟩

/-- C4 (counterexample): `readdir` on the inode of an AccessDenied object
does not succeed with an empty child set — it fails with EACCES
(src/main.rs lines 312-314). -/
theorem c4_readdir_denied_counterexample :
    denyOracle.introspectReply "org.example.A" [] =
      WireReply.error (some DBUS_ACCESS_ERROR) ∧
    (DbusFs.readdir denyOracle denyFs 2 0).1 = ReaddirOut.err EACCES ∧
    (DbusFs.readdir denyOracle denyFs 2 0).1 ≠ ReaddirOut.ok [] := by
  refine ⟨rfl, by decide, by decide⟩

/-- C4 (amended): for every committed inode whose backing object's
introspection returns AccessDenied, `readdir` fails with EACCES (not an
empty success), while `getattr` still reports mode 0750, link count 0 and
directory kind. -/
theorem c4_access_denied_attrs (oracle : BusOracle) (fs : DbusFs)
    (i offset : Nat) (p : List String) (d : String) (o : List String)
    (h : reachable oracle fs)
    (hmem : (i, p) ∈ fs.inodes)
    (hsplit : split_path p = some (d, o))
    (hacc : DbusFs.introspect oracle d o =
      Except.error (some DBUS_ACCESS_ERROR)) :
    (DbusFs.readdir oracle fs i offset).1 = ReaddirOut.err EACCES ∧
    (DbusFs.getattr fs i).map (fun a => a.perm) = some 0o750 ∧
    (DbusFs.getattr fs i).map (fun a => a.nlink) = some 0 ∧
    (DbusFs.getattr fs i).map (fun a => a.kind) = some FileType.Directory := by
  have hInv := reachable_inv oracle fs h
  have hne1 : i ≠ 1 := by
    have := (hInv.hino (i, p) hmem).1
    omega
  have hpath : fs.path_by_inode i = some p := by
    unfold DbusFs.path_by_inode
    exact alistFind_eq_of_mem (fun v w hv hw => hInv.hinofun i v w hv hw) hmem
  obtain ⟨a, ha, haino, hok⟩ := hInv.hspec i p hmem
  have hfind : alistFind i fs.inode_attr = some a :=
    alistFind_eq_of_mem (fun v w hv hw => hInv.hattrfun i v w hv hw) ha
  obtain ⟨hkind, hsize, d', o', hsp', hdisj⟩ := hok
  have hdo : (d', o') = (d, o) := by
    have h' := hsp'.symm.trans hsplit
    injection h'
  injection hdo with hd ho
  subst hd
  subst ho
  rcases hdisj with ⟨ni, hi, hperm, hnlink⟩ | ⟨hi, hperm, hnlink⟩
  · exact absurd (hacc.symm.trans hi) (by simp)
  · refine ⟨?_, ?_, ?_, ?_⟩
    · unfold DbusFs.readdir
      rw [if_neg hne1, hpath]
      dsimp only
      rw [hsplit]
      dsimp only
      rw [hacc]
      dsimp only
      rw [if_pos rfl]
    · unfold DbusFs.getattr DbusFs.attr_by_inode
      rw [if_neg hne1, hfind]
      simp [hperm]
    · unfold DbusFs.getattr DbusFs.attr_by_inode
      rw [if_neg hne1, hfind]
      simp [hnlink]
    · unfold DbusFs.getattr DbusFs.attr_by_inode
      rw [if_neg hne1, hfind]
      simp [hkind]

/-- C4 witness: the amended theorem applied to inode 2 of `denyFs`. -/
theorem c4_access_denied_attrs_witness :
    reachable denyOracle denyFs ∧
    (2, ["org.example.A"]) ∈ denyFs.inodes ∧
    split_path ["org.example.A"] = some ("org.example.A", []) ∧
    DbusFs.introspect denyOracle "org.example.A" [] =
      Except.error (some DBUS_ACCESS_ERROR) ∧
    ((DbusFs.readdir denyOracle denyFs 2 0).1 = ReaddirOut.err EACCES ∧
      (DbusFs.getattr denyFs 2).map (fun a => a.perm) = some 0o750 ∧
      (DbusFs.getattr denyFs 2).map (fun a => a.nlink) = some 0 ∧
      (DbusFs.getattr denyFs 2).map (fun a => a.kind) =
        some FileType.Directory) :=
  ⟨⟨[Op.mkInode ["org.example.A"]], rfl⟩, by decide, rfl, rfl,
    c4_access_denied_attrs denyOracle denyFs 2 0 ["org.example.A"]
      "org.example.A" [] ⟨[Op.mkInode ["org.example.A"]], rfl⟩
      (by decide) rfl rfl⟩

/-- C8: committed inode ids are a bijection onto committed paths and stay
above the reserved root id 1: in any reachable state, two committed
entries with the same id share the path (no id is issued to two distinct
paths, even across interleaved resolutions), distinct paths carry
distinct ids, and every committed id exceeds 1. -/
theorem c8_unique_inode_ids (oracle : BusOracle) (fs : DbusFs)
    (i j : Nat) (p q : List String)
    (h : reachable oracle fs)
    (h1 : (i, p) ∈ fs.inodes) (h2 : (j, q) ∈ fs.inodes) :
    1 < i ∧ (i = j → p = q) ∧ (p ≠ q → i ≠ j) := by
  have hInv := reachable_inv oracle fs h
  refine ⟨?_, ?_, ?_⟩
  · have := (hInv.hino (i, p) h1).1
    omega
  · intro hij
    subst hij
    exact hInv.hinofun i p q h1 h2
  · intro hpq hij
    subst hij
    exact hpq (hInv.hinofun i p q h1 h2)

/-- C8 witness: the uniqueness theorem applied to the two entries of
`denyFs2`. -/
theorem c8_unique_inode_ids_witness :
    reachable denyOracle denyFs2 ∧
    (2, ["org.example.A"]) ∈ denyFs2.inodes ∧
    (3, ["org.example.B"]) ∈ denyFs2.inodes ∧
    ((1 : Nat) < 2 ∧
      ((2 : Nat) = 3 → ["org.example.A"] = ["org.example.B"]) ∧
      (["org.example.A"] ≠ ["org.example.B"] → (2 : Nat) ≠ 3)) :=
  ⟨⟨[Op.mkInode ["org.example.A"], Op.mkInode ["org.example.B"]], rfl⟩,
    by decide, by decide,
    c8_unique_inode_ids denyOracle denyFs2 2 3 ["org.example.A"]
      ["org.example.B"]
      ⟨[Op.mkInode ["org.example.A"], Op.mkInode ["org.example.B"]], rfl⟩
      (by decide) (by decide)⟩
